import Mathlib

/-!
Shallow embedding of the client-side progress table
(`src/Client/ProgressTable.{h,cpp}`): the metric bookkeeping and
rate-smoothing engine behind the live in-terminal metrics display.

Modelling conventions:
* C++ `double` time values and rate results are modelled as `ℚ`
  (exact arithmetic; the claims we settle do not hinge on rounding).
* C++ `Int64` metric values are modelled as `ℤ`.
* Strings are treated at character granularity; all inputs exercised
  here are ASCII, where C++ byte counts and Lean char counts agree.
* External collaborators (the profile-event catalog, the human-readable
  formatters, the documentation lookup) are bundled as parameters in an
  `Externals` structure, since they live outside the two source files.
* The `std::list` + iterator-map pair (`metrics` / `metrics_iterators`)
  is modelled as a single association list with unique keys; the
  iterator map is exactly the set of keys of the list in the source,
  so splice-to-front becomes erase-and-cons.
* Output written to the terminal is modelled as a returned `String`.
-/

namespace ProgressTableModel

/-- External enum `ProfileEvents::ValueType`. -/
inductive ValueType
  | Number
  | Bytes
  | Nanoseconds
  | Microseconds
  | Milliseconds
deriving DecidableEq

/-- External enum `ProfileEvents::Type`: cumulative counters vs gauges. -/
inductive PEType
  | INCREMENT
  | GAUGE
deriving DecidableEq

/-- `MetricInfo::Snapshot`: `{Int64 value = 0; double time = 0;}`. -/
structure Snapshot where
  value : ℤ := 0
  time : ℚ := 0
deriving DecidableEq

/-- `ProgressTable::MetricInfo`: a value-kind tag, the three snapshots
`prev_shapshot`, `cur_shapshot`, `new_snapshot`, and `update_time`. -/
structure MetricInfo where
  type : PEType
  prev_shapshot : Snapshot := {}
  cur_shapshot : Snapshot := {}
  new_snapshot : Snapshot := {}
  update_time : ℚ := 0
deriving DecidableEq

/-- The constructor `MetricInfo(ProfileEvents::Type t) : type(t)`:
all snapshots and the update time keep their zero defaults. -/
def MetricInfo.init (t : PEType) : MetricInfo := { type := t }

/-- `MetricInfo::updateValue(Int64 new_value, double new_time)`.
Mirrors the source step by step: the idle-gap rebase of the two rate
snapshots, the kind-dependent value update of `new_snapshot`, the
window rotation, and finally setting `update_time`. -/
def MetricInfo.updateValue (m : MetricInfo) (new_value : ℤ) (new_time : ℚ) : MetricInfo :=
  let rebased : MetricInfo :=
    if 1/2 ≤ new_time - m.new_snapshot.time ∨ m.new_snapshot.time = 0 then
      { m with
        prev_shapshot := ⟨m.new_snapshot.value, new_time - 1⟩
        cur_shapshot := ⟨m.new_snapshot.value, new_time - 1⟩ }
    else m
  let updated_value : ℤ :=
    match m.type with
    | PEType.INCREMENT => rebased.new_snapshot.value + new_value
    | PEType.GAUGE => new_value
  let bumped : MetricInfo := { rebased with new_snapshot := ⟨updated_value, new_time⟩ }
  let rotated : MetricInfo :=
    if 1/2 ≤ bumped.new_snapshot.time - bumped.cur_shapshot.time then
      { bumped with
        prev_shapshot := bumped.cur_shapshot
        cur_shapshot := bumped.new_snapshot }
    else bumped
  { rotated with update_time := new_time }

/-- `MetricInfo::isFresh(double now)`: updated at all, and within the
3-second freshness threshold. -/
def MetricInfo.isFresh (m : MetricInfo) (now : ℚ) : Bool :=
  decide (m.update_time ≠ 0) && decide (now - m.update_time ≤ 3)

/-- `MetricInfo::calculateProgress(double time_now)`: zero when the
value has not been updated within the last half second, otherwise the
delta between the current and previous snapshots over their time gap. -/
def MetricInfo.calculateProgress (m : MetricInfo) (time_now : ℚ) : ℚ :=
  if 1/2 ≤ time_now - m.new_snapshot.time then 0
  else ((m.cur_shapshot.value : ℚ) - (m.prev_shapshot.value : ℚ))
        / (m.cur_shapshot.time - m.prev_shapshot.time)

/-- `MetricInfo::getValue()`: the latest value, as a double. -/
def MetricInfo.getValue (m : MetricInfo) : ℚ := (m.new_snapshot.value : ℚ)

/-- A whole series of `updateValue` calls applied in order to a freshly
constructed `MetricInfo`. -/
def applyAll (t : PEType) (samples : List (ℤ × ℚ)) : MetricInfo :=
  samples.foldl (fun m p => m.updateValue p.1 p.2) (MetricInfo.init t)

/-- `MetricInfoPerHost`: per-host fan-in for one metric name.  The
`std::unordered_map` is modelled as an association list with unique
keys (iteration order is irrelevant to every quantity read from it:
sums and maxima are order-independent). -/
structure MetricInfoPerHost where
  host_to_metric : List (String × MetricInfo) := []
  max_progress : ℚ := 0
deriving DecidableEq

/-- Replace the value stored under the first matching key of an
association list, in place. -/
def updAssoc (host : String) (f : MetricInfo → MetricInfo) :
    List (String × MetricInfo) → List (String × MetricInfo)
  | [] => []
  | (h, i) :: rest =>
      if h == host then (h, f i) :: rest else (h, i) :: updAssoc host f rest

/-- `MetricInfoPerHost::updateHostValue`: look up (or lazily create
with the given kind) the host's series, then apply the sample to it. -/
def MetricInfoPerHost.updateHostValue (p : MetricInfoPerHost) (host : String)
    (ty : PEType) (new_value : ℤ) (new_time : ℚ) : MetricInfoPerHost :=
  let htm :=
    if (p.host_to_metric.lookup host).isSome then p.host_to_metric
    else p.host_to_metric ++ [(host, MetricInfo.init ty)]
  { p with host_to_metric := updAssoc host (fun i => i.updateValue new_value new_time) htm }

/-- `MetricInfoPerHost::getSummaryValue`: `std::accumulate` of
`getValue` over all hosts, starting from 0. -/
def MetricInfoPerHost.getSummaryValue (p : MetricInfoPerHost) : ℚ :=
  (p.host_to_metric.map (fun x => x.2.getValue)).foldl (fun a b => a + b) 0

/-- `MetricInfoPerHost::getSummaryProgress(double time_now)`: sums
`calculateProgress` over all hosts and, as a side effect, raises
`max_progress` to the new total.  Modelled as returning the progress
together with the updated aggregate. -/
def MetricInfoPerHost.getSummaryProgress (p : MetricInfoPerHost) (time_now : ℚ) :
    ℚ × MetricInfoPerHost :=
  let progress :=
    (p.host_to_metric.map (fun x => x.2.calculateProgress time_now)).foldl (fun a b => a + b) 0
  (progress, { p with max_progress := max p.max_progress progress })

/-- `MetricInfoPerHost::getMaxProgress()`. -/
def MetricInfoPerHost.getMaxProgress (p : MetricInfoPerHost) : ℚ := p.max_progress

/-- `MetricInfoPerHost::isFresh(double now)`: any host fresh. -/
def MetricInfoPerHost.isFresh (p : MetricInfoPerHost) (now : ℚ) : Bool :=
  p.host_to_metric.any (fun x => x.2.isFresh now)

/-- An interleaving of aggregate operations: sample updates and
summary-progress reads, used to state how `max_progress` evolves
across calls. -/
inductive HostOp
  | upd (host : String) (ty : PEType) (v : ℤ) (t : ℚ)
  | read (t : ℚ)

/-- Run a sequence of aggregate operations, collecting the progress
value returned by each `read` (i.e. each `getSummaryProgress` call). -/
def runOps (p : MetricInfoPerHost) : List HostOp → MetricInfoPerHost × List ℚ
  | [] => (p, [])
  | HostOp.upd h ty v t :: ops => runOps (p.updateHostValue h ty v t) ops
  | HostOp.read t :: ops =>
      let pr := (p.getSummaryProgress t).1
      let p2 := (p.getSummaryProgress t).2
      let rest := runOps p2 ops
      (rest.1, pr :: rest.2)

/-- The five-color ladder of `setColorForProgress` (SGR codes). -/
def progressColors : List String :=
  ["\x1b[38;5;236m", "\x1b[38;5;250m", "\x1b[38;5;34m", "\x1b[38;5;226m", "\x1b[1;33m"]

/-- The fractional breakpoints `{0.05, 0.20, 0.80, 0.95}`. -/
def progressFractions : List ℚ := [1/20, 1/5, 4/5, 19/20]

/-- `std::upper_bound` on a sorted list: index of the first element
strictly greater than `x` (the length when there is none). -/
def upperBoundIdx (l : List ℚ) (x : ℚ) : ℕ :=
  l.findIdx (fun b => decide (x < b))

/-- `setColorForProgress(double progress, double max_progress)`:
tier 0 when no maximum has been seen, otherwise the upper-bound tier
of `progress / max_progress` against the fractional breakpoints. -/
def setColorForProgress (progress max_progress : ℚ) : String :=
  if max_progress = 0 then progressColors.headD ""
  else progressColors.getD (upperBoundIdx progressFractions (progress / max_progress)) ""

/-- The seven-color ladder of `setColorForBytesBasedMetricsProgress`. -/
def bytesColors : List String :=
  ["\x1b[38;5;236m", "\x1b[38;5;250m", "\x1b[38;5;34m", "\x1b[38;5;226m",
   "\x1b[38;5;208m", "\x1b[1;33m", "\x1b[38;5;160m"]

/-- The byte-per-second breakpoints (mebibyte-scaled). -/
def bytesThresholds : List ℚ :=
  [2 ^ 20, 100 * 2 ^ 20, 1000 * 2 ^ 20, 10000 * 2 ^ 20, 100000 * 2 ^ 20, 1000000 * 2 ^ 20]

/-- `setColorForBytesBasedMetricsProgress(double progress)`. -/
def setColorForBytesBasedMetricsProgress (progress : ℚ) : String :=
  bytesColors.getD (upperBoundIdx bytesThresholds progress) ""

/-- Time units in a second for the time-based value types; `none`
models the `LOGICAL_ERROR` thrown on a non-time value type. -/
def timeUnits : ValueType → Option ℚ
  | ValueType.Milliseconds => some 1000
  | ValueType.Microseconds => some 1000000
  | ValueType.Nanoseconds => some 1000000000
  | _ => none

/-- The five-color ladder of `setColorForTimeBasedMetricsProgress`. -/
def timeColors : List String :=
  ["\x1b[38;5;236m", "\x1b[38;5;250m", "\x1b[38;5;34m", "\x1b[38;5;226m", "\x1b[1;33m"]

/-- `setColorForTimeBasedMetricsProgress(value_type, progress)`:
thresholds `{0.001, 0.01, 0.1, 1.0}` scaled by the unit. -/
def setColorForTimeBasedMetricsProgress (vt : ValueType) (progress : ℚ) : String :=
  match timeUnits vt with
  | none => ""
  | some u =>
      timeColors.getD (upperBoundIdx [1/1000 * u, 1/100 * u, 1/10 * u, u] progress) ""

/-- `setColorForDocumentation()`. -/
def setColorForDocumentation : String := "\x1b[38;5;236m"

/-- Escape sequences used by the renderer. -/
def CLEAR_TO_END_OF_LINE : String := "\x1b[K"

def CLEAR_TO_END_OF_SCREEN : String := "\x1b[0J"

def RESET_COLOR : String := "\x1b[0m"

def HIDE_CURSOR : String := "\x1b[?25l"

def SHOW_CURSOR : String := "\x1b[?25h"

/-- `moveUpNLines(size_t N)`. -/
def moveUpNLines (n : ℕ) : String := "\x1b[" ++ toString n ++ "A"

/-- Layout constants of `ProgressTable`. -/
def COLUMN_EVENT_NAME : String := "Event name"

def COLUMN_VALUE : String := "Value"

def COLUMN_PROGRESS : String := "Progress"

def COLUMN_DOCUMENTATION_NAME : String := "Documentation"

def COLUMN_VALUE_WIDTH : ℕ := 20

def COLUMN_PROGRESS_WIDTH : ℕ := 20

def COLUMN_DOCUMENTATION_MIN_WIDTH : ℕ := COLUMN_DOCUMENTATION_NAME.length

/-- `THREAD_GROUP_ID = 0`: the sentinel thread id carrying whole-query
aggregate rows. -/
def THREAD_GROUP_ID : ℕ := 0

/-- External collaborators of the progress table, fixed for a run:
the profile-event catalog (`getEventNameToEvent` composed with
`getValueType`), the per-event documentation text, and the
human-readable formatters from `Common/formatReadable.h`. -/
structure Externals where
  catalog : String → Option ValueType
  eventDoc : String → String
  fmtQuantity : ℚ → ℕ → String
  fmtBytes : ℚ → String
  fmtTime : ℚ → String

/-- `formatReadableValue(ValueType value_type, double value)`:
dispatch to the unit-aware formatter; the `Number` precision is 0 for
small integral values and 2 otherwise. -/
def formatReadableValue (ext : Externals) (vt : ValueType) (value : ℚ) : String :=
  match vt with
  | ValueType.Number =>
      ext.fmtQuantity value (if (⌊value⌋ : ℚ) = value ∧ |value| < 1000 then 0 else 2)
  | ValueType.Bytes => ext.fmtBytes value
  | ValueType.Nanoseconds => ext.fmtTime value
  | ValueType.Microseconds => ext.fmtTime (value * 1000)
  | ValueType.Milliseconds => ext.fmtTime (value * 1000000)

/-- `writeWithWidth`: pad with spaces to the column width, or emit the
string followed by a single space when it already fills the column. -/
def writeWithWidth (s : String) (width : ℕ) : String :=
  if width ≤ s.length then s ++ " "
  else s ++ String.mk (List.replicate (width - s.length) ' ')

/-- `writeWithWidthStrict`: truncate to the column width, marking the
cut with an ellipsis when there is room for it. -/
def writeWithWidthStrict (s : String) (width : ℕ) : String :=
  let ellipsis := "…"
  if width < s.length then
    if width ≤ ellipsis.length then String.mk (s.data.take width)
    else String.mk (s.data.take (width - ellipsis.length)) ++ ellipsis
  else s

/-- One row of a `ProfileEvents` block: the five columns read by
`updateTable` (`thread_id`, `name`, `host_name`, `value`, `type`). -/
structure Row where
  thread_id : ℕ
  name : String
  host_name : String
  value : ℤ
  type : PEType

/-- The registry state of `ProgressTable`: the recency-ordered metric
list (unique names; the `metrics_iterators` index is implicit as the
key set) and the dynamic event-name column width. -/
structure ProgressTable where
  metrics : List (String × MetricInfoPerHost) := []
  column_event_name_width : ℕ := 20

/-- The first filtering loop of `updateTable` pairs each row with its
row number; modelled by an explicit counter. -/
def enumRows : ℕ → List Row → List (Row × ℕ)
  | _, [] => []
  | i, r :: rs => (r, i) :: enumRows (i + 1) rs

/-- The `std::sort` comparator on `(name, row_num)` pairs, turned into
a total `≤` test: name descending, then row number ascending. -/
def rowSortLE (a b : Row × ℕ) : Bool :=
  decide (b.1.name < a.1.name) || (a.1.name == b.1.name && decide (a.2 ≤ b.2))

/-- Insert into a sorted list (the comparator is a strict total order
on the distinct row numbers, so the sorted permutation is unique and
any comparison sort, `std::sort` included, produces this result). -/
def insertSorted (x : Row × ℕ) : List (Row × ℕ) → List (Row × ℕ)
  | [] => [x]
  | y :: ys => if rowSortLE x y then x :: y :: ys else y :: insertSorted x ys

/-- Sorting by `(name descending, row number ascending)`. -/
def sortRows (l : List (Row × ℕ)) : List (Row × ℕ) :=
  l.foldr insertSorted []

/-- The three record filters of `updateTable`, in source order: the
aggregate thread-group sentinel, catalog membership, zero suppression. -/
def acceptedRow (ext : Externals) (r : Row) : Bool :=
  (r.thread_id == THREAD_GROUP_ID) && (ext.catalog r.name).isSome && !(r.value == 0)

/-- The body of the second `updateTable` loop for one `(row, row_num)`
pair: drop filtered records; otherwise move (or insert) the metric at
the front of the registry, fold the sample into its aggregate, and
raise the running name-width maximum. -/
def processRow (ext : Externals) (time_now : ℚ) (acc : ProgressTable × ℕ)
    (rr : Row × ℕ) : ProgressTable × ℕ :=
  let st := acc.1
  let maxw := acc.2
  let r := rr.1
  if r.thread_id ≠ THREAD_GROUP_ID then acc
  else if (ext.catalog r.name).isNone then acc
  else if r.value = 0 then acc
  else
    let front :=
      match st.metrics.lookup r.name with
      | some a => a
      | none => {}
    let rest :=
      match st.metrics.lookup r.name with
      | some _ => st.metrics.eraseP (fun kv => kv.1 == r.name)
      | none => st.metrics
    let front := front.updateHostValue r.host_name r.type r.value time_now
    ({ st with metrics := (r.name, front) :: rest }, max maxw r.name.length)

/-- `ProgressTable::updateTable(const Block & block)`: collect the
thread-group rows with their row numbers, sort by name descending and
row number ascending, fold every record through `processRow`, and
store the recomputed event-name column width (batch maximum plus one
space). -/
def updateTable (ext : Externals) (st : ProgressTable) (block : List Row)
    (time_now : ℚ) : ProgressTable :=
  let pairs := (enumRows 0 block).filter (fun rr => rr.1.thread_id == THREAD_GROUP_ID)
  let folded := (sortRows pairs).foldl (processRow ext time_now) (st, COLUMN_EVENT_NAME.length)
  { folded.1 with column_event_name_width := folded.2 + 1 }

/-- `ProgressTable::getColumnDocumentationWidth(size_t terminal_width)`. -/
def getColumnDocumentationWidth (st : ProgressTable) (terminal_width : ℕ) : ℕ :=
  let fixed_columns_width :=
    st.column_event_name_width + COLUMN_VALUE_WIDTH + COLUMN_PROGRESS_WIDTH
  if terminal_width < fixed_columns_width + COLUMN_DOCUMENTATION_MIN_WIDTH then 0
  else terminal_width - fixed_columns_width

/-- `ProgressTable::getFreshMetricsCount(double time_now)`: fresh rows
plus the header line, or zero when nothing is fresh. -/
def getFreshMetricsCount (st : ProgressTable) (time_now : ℚ) : ℕ :=
  let c := (st.metrics.filter (fun kv => kv.2.isFresh time_now)).length
  if c = 0 then 0 else c + 1

/-- One fresh row of the live table: name, formatted value, colored
formatted rate, optional documentation column.  Returns the bytes
written together with the entry whose `max_progress` the embedded
`getSummaryProgress` call may have raised ("" and the unchanged entry
for a stale metric).  A registry entry's name is always present in the
catalog (only accepted records create entries), so the `getD` default
is never reached from `updateTable`-built states. -/
def writeTableRow (ext : Externals) (elapsed : ℚ) (colw cdocw : ℕ)
    (kv : String × MetricInfoPerHost) : String × (String × MetricInfoPerHost) :=
  let name := kv.1
  let phi := kv.2
  if !phi.isFresh elapsed then ("", kv)
  else
    let value := phi.getSummaryValue
    let vt := (ext.catalog name).getD ValueType.Number
    let s1 := "\n" ++ writeWithWidth name colw
      ++ writeWithWidth (formatReadableValue ext vt value) COLUMN_VALUE_WIDTH
    let maxp := phi.getMaxProgress
    let progress := (phi.getSummaryProgress elapsed).1
    let phi2 := (phi.getSummaryProgress elapsed).2
    let color :=
      match vt with
      | ValueType.Number => setColorForProgress progress maxp
      | ValueType.Bytes => setColorForBytesBasedMetricsProgress progress
      | _ => setColorForTimeBasedMetricsProgress vt progress
    let s2 := color
      ++ writeWithWidth (formatReadableValue ext vt progress ++ "/s") COLUMN_PROGRESS_WIDTH
    let s3 :=
      if cdocw ≠ 0 then setColorForDocumentation ++ writeWithWidthStrict (ext.eventDoc name) cdocw
      else ""
    (s1 ++ s2 ++ s3 ++ RESET_COLOR ++ CLEAR_TO_END_OF_LINE, (name, phi2))

/-- `ProgressTable::writeTable`: the live render.  The terminal width
and elapsed seconds are passed in for the external `getTerminalWidth`
and `watch.elapsedSeconds()` collaborators; the bytes written are
returned together with the updated registry (the row loop raises each
fresh entry's `max_progress`). -/
def writeTable (ext : Externals) (st : ProgressTable) (terminal_width : ℕ)
    (elapsed : ℚ) (show_table toggle_enabled : Bool) : String × ProgressTable :=
  if !show_table && toggle_enabled then
    (CLEAR_TO_END_OF_SCREEN ++ HIDE_CURSOR ++ "\n"
      ++ "Press the space key to toggle the display of the progress table."
      ++ moveUpNLines 1, st)
  else if terminal_width < st.column_event_name_width + COLUMN_VALUE_WIDTH + COLUMN_PROGRESS_WIDTH then
    ("", st)
  else if st.metrics.isEmpty then
    ("", st)
  else
    let cdocw := getColumnDocumentationWidth st terminal_width
    let header := HIDE_CURSOR ++ "\n"
      ++ writeWithWidth COLUMN_EVENT_NAME st.column_event_name_width
      ++ writeWithWidth COLUMN_VALUE COLUMN_VALUE_WIDTH
      ++ writeWithWidth COLUMN_PROGRESS COLUMN_PROGRESS_WIDTH
      ++ (if cdocw ≠ 0 then writeWithWidth COLUMN_DOCUMENTATION_NAME cdocw else "")
      ++ CLEAR_TO_END_OF_LINE
    let folded := st.metrics.foldl
      (fun (acc : String × List (String × MetricInfoPerHost)) kv =>
        let out := writeTableRow ext elapsed st.column_event_name_width cdocw kv
        (acc.1 ++ out.1, acc.2 ++ [out.2]))
      ("", [])
    let st2 : ProgressTable := { st with metrics := folded.2 }
    (header ++ folded.1 ++ moveUpNLines (getFreshMetricsCount st2 elapsed), st2)

/-- One row of the final summary: name and formatted summary value. -/
def finalRow (ext : Externals) (colw : ℕ) (kv : String × MetricInfoPerHost) : String :=
  "\n" ++ writeWithWidth kv.1 colw
    ++ writeWithWidth
        (formatReadableValue ext ((ext.catalog kv.1).getD ValueType.Number) kv.2.getSummaryValue)
        COLUMN_VALUE_WIDTH

/-- `ProgressTable::writeFinalTable()`: the plain permanent summary —
header plus one name-and-value row for every registry entry, with no
freshness filtering, gated only on terminal width and non-emptiness. -/
def writeFinalTable (ext : Externals) (st : ProgressTable) (terminal_width : ℕ) : String :=
  if terminal_width < st.column_event_name_width + COLUMN_VALUE_WIDTH then ""
  else if st.metrics.isEmpty then ""
  else
    st.metrics.foldl
      (fun acc kv =>
        acc ++ "\n" ++ writeWithWidth kv.1 st.column_event_name_width
          ++ writeWithWidth
              (formatReadableValue ext ((ext.catalog kv.1).getD ValueType.Number)
                kv.2.getSummaryValue)
              COLUMN_VALUE_WIDTH)
      ("\n" ++ writeWithWidth COLUMN_EVENT_NAME st.column_event_name_width
        ++ writeWithWidth COLUMN_VALUE COLUMN_VALUE_WIDTH)

/-- `ProgressTable::resetTable()`: clear the registry (the stopwatch
restart is the external clock collaborator). -/
def resetTable (st : ProgressTable) : ProgressTable :=
  { st with metrics := [] }

/-- The cumulative series of the windowed-rate scenario:
`apply(100, t=0)` followed by `apply(150, t=1.0)`. -/
def c1_series : MetricInfo :=
  applyAll PEType.INCREMENT [(100, 0), (150, 1)]

/-- A sample catalog for concrete scenarios: two short names as in the
spec's recency example, plus two real profile-event names of lengths
5 and 28 (`Query`, `OSCPUVirtualTimeMicroseconds`). -/
def demoCatalog : String → Option ValueType := fun n =>
  if n == "A" || n == "B" || n == "Query" then some ValueType.Number
  else if n == "OSCPUVirtualTimeMicroseconds" then some ValueType.Microseconds
  else none

/-- A concrete choice of external collaborators for the scenarios:
the sample catalog and trivial formatters. -/
def demoExternals : Externals where
  catalog := demoCatalog
  eventDoc := fun _ => ""
  fmtQuantity := fun _ _ => ""
  fmtBytes := fun _ => ""
  fmtTime := fun _ => ""

/-- Row `{thread 0, "A", host "h", value 1, INCREMENT}`. -/
def rowA : Row := { thread_id := 0, name := "A", host_name := "h", value := 1, type := PEType.INCREMENT }

/-- Row `{thread 0, "B", host "h", value 1, INCREMENT}`. -/
def rowB : Row := { thread_id := 0, name := "B", host_name := "h", value := 1, type := PEType.INCREMENT }

/-- Row `{thread 0, "Query", host "h", value 3, INCREMENT}`. -/
def rowQuery : Row :=
  { thread_id := 0, name := "Query", host_name := "h", value := 3, type := PEType.INCREMENT }

/-- Row carrying the 28-character name, value 7. -/
def rowLong : Row :=
  { thread_id := 0, name := "OSCPUVirtualTimeMicroseconds", host_name := "h"
    value := 7, type := PEType.INCREMENT }

/-- Row `{thread 0, "Query", host "h", value 0, INCREMENT}`: a
zero-valued sample, subject to zero suppression. -/
def rowZero : Row :=
  { thread_id := 0, name := "Query", host_name := "h", value := 0, type := PEType.INCREMENT }

/-- The snapshot window is strictly ordered: the current snapshot is
strictly newer than the previous one. -/
def WindowOrdered (m : MetricInfo) : Prop :=
  m.prev_shapshot.time < m.cur_shapshot.time

/-- One `updateValue` call establishes or preserves the strict window
ordering: a rebase is always followed by a rotation (the rebased gap is
exactly 1 ≥ 1/2), a rotation without rebase opens a gap of at least
1/2, and if neither fires the ordered window is untouched. -/
lemma updateValue_windowOrdered (m : MetricInfo) (v : ℤ) (t : ℚ)
    (h : WindowOrdered m ∨ m.new_snapshot.time = 0) :
    WindowOrdered (m.updateValue v t) := by
  unfold WindowOrdered MetricInfo.updateValue
  dsimp only
  split_ifs with h1 h2 h3
  · simp only
    linarith
  · exfalso
    simp only at h2
    linarith
  · simp only
    simp only at h3
    linarith
  · rcases h with h | h
    · exact h
    · exact absurd (Or.inr h) h1

/-- After the very first `updateValue` the window is strictly ordered:
the zero-time bootstrap rebases both snapshots one second into the
past and the subsequent rotation always fires. -/
lemma applyAll_windowOrdered (ty : PEType) (samples : List (ℤ × ℚ)) (h : samples ≠ []) :
    WindowOrdered (applyAll ty samples) := by
  have step : ∀ (l : List (ℤ × ℚ)) (m : MetricInfo), WindowOrdered m →
      WindowOrdered (l.foldl (fun m p => m.updateValue p.1 p.2) m) := by
    intro l
    induction l with
    | nil => intro m hm; exact hm
    | cons p l ih =>
        intro m hm
        exact ih _ (updateValue_windowOrdered m p.1 p.2 (Or.inl hm))
  cases samples with
  | nil => exact absurd rfl h
  | cons p l =>
      unfold applyAll
      simp only [List.foldl_cons]
      exact step l _ (updateValue_windowOrdered (MetricInfo.init ty) p.1 p.2 (Or.inr rfl))


/-- C1 (counterexample): on a Cumulative series, `apply(100, t=0)`
then `apply(150, t=1.0)` yields `rate(1.0) = 150`, not ≈ 50: the
second `apply` adds 150 to the running total 100 (giving 250) while
the rebase pins the previous snapshot at value 100, so the windowed
delta is 150 over 1 second — off from the claimed 50 by 100, far
beyond any floating-point tolerance. -/
theorem c1_windowed_rate_counterexample :
    MetricInfo.calculateProgress c1_series 1 = 150 ∧
    MetricInfo.calculateProgress c1_series 1 ≠ 50 := by
  constructor <;>
    norm_num [c1_series, applyAll, MetricInfo.updateValue, MetricInfo.init,
      MetricInfo.calculateProgress]

/-- C1 (amended): on a Cumulative series, `apply(100, t=0)` then
`apply(150, t=1.0)`: the ≥ 0.5 s gap triggers the rebase (previous and
current pinned to `{100, 0.0}`) and the subsequent rotation (current
becomes `{250, 1.0}`), and `rate(1.0) = 150` exactly — a delta of 150
over a 1-second window, since the cumulative update adds the incoming
150 to the running total 100. -/
theorem c1_windowed_rate_amended :
    c1_series.prev_shapshot = ⟨100, 0⟩ ∧
    c1_series.cur_shapshot = ⟨250, 1⟩ ∧
    MetricInfo.calculateProgress c1_series 1 = 150 := by
  refine ⟨?_, ?_, ?_⟩ <;>
    norm_num [c1_series, applyAll, MetricInfo.updateValue, MetricInfo.init,
      MetricInfo.calculateProgress, Snapshot.mk.injEq]

/-- C2: for a series built by at least one `apply`, the rate is 0 when
the last sample is at least half a second old, and otherwise is the
current-minus-previous value delta divided by the snapshot time gap;
that gap is strictly positive after every `apply`, so the division is
never a divide-by-zero. -/
theorem c2_rate_well_defined (ty : PEType) (samples : List (ℤ × ℚ))
    (h : samples ≠ []) (now : ℚ) :
    (applyAll ty samples).prev_shapshot.time < (applyAll ty samples).cur_shapshot.time ∧
    (1/2 ≤ now - (applyAll ty samples).new_snapshot.time →
      (applyAll ty samples).calculateProgress now = 0) ∧
    (now - (applyAll ty samples).new_snapshot.time < 1/2 →
      (applyAll ty samples).cur_shapshot.time - (applyAll ty samples).prev_shapshot.time ≠ 0 ∧
      (applyAll ty samples).calculateProgress now =
        (((applyAll ty samples).cur_shapshot.value : ℚ) - ((applyAll ty samples).prev_shapshot.value : ℚ))
          / ((applyAll ty samples).cur_shapshot.time - (applyAll ty samples).prev_shapshot.time)) := by
  have hw : WindowOrdered (applyAll ty samples) := applyAll_windowOrdered ty samples h
  refine ⟨hw, ?_, ?_⟩
  · intro hstale
    unfold MetricInfo.calculateProgress
    rw [if_pos hstale]
  · intro hfresh
    refine ⟨by intro h0; exact absurd (sub_eq_zero.mp h0) (ne_of_gt hw), ?_⟩
    unfold MetricInfo.calculateProgress
    rw [if_neg (not_le.mpr hfresh)]

/-- C2 (witness): the well-definedness statement instantiated on the
two-sample cumulative series, read at `now = 1`. -/
theorem c2_rate_well_defined_witness :
    (applyAll PEType.INCREMENT [(100, 0), (150, 1)]).prev_shapshot.time
        < (applyAll PEType.INCREMENT [(100, 0), (150, 1)]).cur_shapshot.time ∧
    (1/2 ≤ 1 - (applyAll PEType.INCREMENT [(100, 0), (150, 1)]).new_snapshot.time →
      (applyAll PEType.INCREMENT [(100, 0), (150, 1)]).calculateProgress 1 = 0) ∧
    (1 - (applyAll PEType.INCREMENT [(100, 0), (150, 1)]).new_snapshot.time < 1/2 →
      (applyAll PEType.INCREMENT [(100, 0), (150, 1)]).cur_shapshot.time
          - (applyAll PEType.INCREMENT [(100, 0), (150, 1)]).prev_shapshot.time ≠ 0 ∧
      (applyAll PEType.INCREMENT [(100, 0), (150, 1)]).calculateProgress 1 =
        (((applyAll PEType.INCREMENT [(100, 0), (150, 1)]).cur_shapshot.value : ℚ)
            - ((applyAll PEType.INCREMENT [(100, 0), (150, 1)]).prev_shapshot.value : ℚ))
          / ((applyAll PEType.INCREMENT [(100, 0), (150, 1)]).cur_shapshot.time
              - (applyAll PEType.INCREMENT [(100, 0), (150, 1)]).prev_shapshot.time)) :=
  c2_rate_well_defined PEType.INCREMENT [(100, 0), (150, 1)] (List.cons_ne_nil _ _) 1

/-- C10: a series whose only sample arrives at elapsed time exactly 0
stores `update_time = 0`, and `isFresh` then returns `false` for every
`now` — indistinguishable from a series that was never updated, whose
`isFresh` is also `false`. -/
theorem c10_update_at_time_zero_never_fresh (ty : PEType) (v : ℤ) (now : ℚ) :
    ((MetricInfo.init ty).updateValue v 0).update_time = 0 ∧
    ((MetricInfo.init ty).updateValue v 0).isFresh now = false ∧
    (MetricInfo.init ty).isFresh now = false := by
  have h0 : ∀ m : MetricInfo, m.update_time = 0 → m.isFresh now = false := by
    intro m hm
    unfold MetricInfo.isFresh
    rw [hm]
    simp
  have hu : ((MetricInfo.init ty).updateValue v 0).update_time = 0 := rfl
  exact ⟨hu, h0 _ hu, h0 _ rfl⟩

/-- On the sorted breakpoint list, the upper-bound index (first entry
strictly greater than the fraction) equals the count of breakpoints
that are at most the fraction. -/
lemma upperBoundIdx_progressFractions_count (f : ℚ) :
    upperBoundIdx progressFractions f =
      (progressFractions.filter (fun b => decide (b ≤ f))).length := by
  unfold upperBoundIdx progressFractions
  rcases lt_or_le f (1/20) with h1 | h1
  · have g2 : f < 1/5 := by linarith
    have g3 : f < 4/5 := by linarith
    have g4 : f < 19/20 := by linarith
    simp only [List.findIdx_cons, List.filter_cons,
      decide_eq_true h1, decide_eq_true g2, decide_eq_true g3, decide_eq_true g4,
      decide_eq_false (not_le.mpr h1), decide_eq_false (not_le.mpr g2),
      decide_eq_false (not_le.mpr g3), decide_eq_false (not_le.mpr g4)]
    simp
  · rcases lt_or_le f (1/5) with h2 | h2
    · have g3 : f < 4/5 := by linarith
      have g4 : f < 19/20 := by linarith
      simp only [List.findIdx_cons, List.filter_cons,
        decide_eq_false (not_lt.mpr h1), decide_eq_true g3, decide_eq_true g4, decide_eq_true h2,
        decide_eq_true h1, decide_eq_false (not_le.mpr h2),
        decide_eq_false (not_le.mpr g3), decide_eq_false (not_le.mpr g4)]
      simp
    · rcases lt_or_le f (4/5) with h3 | h3
      · have g4 : f < 19/20 := by linarith
        simp only [List.findIdx_cons, List.filter_cons,
          decide_eq_false (not_lt.mpr h1), decide_eq_false (not_lt.mpr h2),
          decide_eq_true h3, decide_eq_true g4, decide_eq_true h1, decide_eq_true h2,
          decide_eq_false (not_le.mpr h3), decide_eq_false (not_le.mpr g4)]
        simp
      · rcases lt_or_le f (19/20) with h4 | h4
        · simp only [List.findIdx_cons, List.filter_cons,
            decide_eq_false (not_lt.mpr h1), decide_eq_false (not_lt.mpr h2),
            decide_eq_false (not_lt.mpr h3), decide_eq_true h4,
            decide_eq_true h1, decide_eq_true h2, decide_eq_true h3,
            decide_eq_false (not_le.mpr h4)]
          simp
        · simp only [List.findIdx_cons, List.filter_cons,
            decide_eq_false (not_lt.mpr h1), decide_eq_false (not_lt.mpr h2),
            decide_eq_false (not_lt.mpr h3), decide_eq_false (not_lt.mpr h4),
            decide_eq_true h1, decide_eq_true h2, decide_eq_true h3, decide_eq_true h4]
          simp

/-- A pointwise-weaker filter keeps at most as many elements. -/
lemma filter_length_mono {α : Type} {l : List α} {p q : α → Bool}
    (h : ∀ a, p a = true → q a = true) :
    (l.filter p).length ≤ (l.filter q).length := by
  induction l with
  | nil => simp
  | cons x xs ih =>
      by_cases hp : p x = true
      · simp only [List.filter_cons, hp, h x hp, if_true]
        simpa using ih
      · by_cases hq : q x = true <;> simp [List.filter_cons, hp, hq] <;> omega

/-- C6: for the count color ladder, the selected tier is the count of
fractional breakpoints at most `rate / running_max_rate` (equivalently
the upper-bound index, the first breakpoint strictly greater), the
tier is monotone in the fraction, and a zero running maximum forces
tier 0 regardless of the rate. -/
theorem c6_count_color_ladder :
    (∀ progress max_progress : ℚ, max_progress ≠ 0 →
      setColorForProgress progress max_progress =
        progressColors.getD
          ((progressFractions.filter
            (fun b => decide (b ≤ progress / max_progress))).length) "") ∧
    (∀ f1 f2 : ℚ, f1 ≤ f2 →
      upperBoundIdx progressFractions f1 ≤ upperBoundIdx progressFractions f2) ∧
    (∀ progress : ℚ, setColorForProgress progress 0 = progressColors.getD 0 "") := by
  refine ⟨?_, ?_, ?_⟩
  · intro progress max_progress h
    unfold setColorForProgress
    rw [if_neg h, upperBoundIdx_progressFractions_count]
  · intro f1 f2 h
    rw [upperBoundIdx_progressFractions_count, upperBoundIdx_progressFractions_count]
    refine filter_length_mono ?_
    intro a ha
    simp only [decide_eq_true_eq] at ha ⊢
    linarith
  · intro progress
    unfold setColorForProgress
    rw [if_pos rfl]
    rfl

/-- C6 (witness): the ladder characterization at `rate = 1`,
`running_max_rate = 2`, and the monotonicity at fractions 1/10 ≤ 9/10. -/
theorem c6_count_color_ladder_witness :
    setColorForProgress 1 2 =
      progressColors.getD
        ((progressFractions.filter (fun b => decide (b ≤ 1 / 2))).length) "" ∧
    upperBoundIdx progressFractions (1/10) ≤ upperBoundIdx progressFractions (9/10) :=
  ⟨c6_count_color_ladder.1 1 2 (by norm_num),
   c6_count_color_ladder.2.1 (1/10) (9/10) (by norm_num)⟩

/-- `updateHostValue` never touches the running maximum rate. -/
lemma updateHostValue_maxProgress (p : MetricInfoPerHost) (h : String)
    (ty : PEType) (v : ℤ) (t : ℚ) :
    (p.updateHostValue h ty v t).max_progress = p.max_progress := rfl

/-- Across any interleaving of sample updates and summary-progress
reads, the stored maximum is the fold of `max` over all progresses the
reads returned, seeded with the starting maximum. -/
lemma runOps_maxProgress (ops : List HostOp) :
    ∀ p : MetricInfoPerHost,
      ((runOps p ops).1).max_progress = List.foldl max p.max_progress (runOps p ops).2 := by
  induction ops with
  | nil => intro p; rfl
  | cons op ops ih =>
      intro p
      cases op with
      | upd h ty v t =>
          simp only [runOps]
          rw [ih, updateHostValue_maxProgress]
      | read t =>
          simp only [runOps, List.foldl_cons]
          rw [ih]
          rfl

/-- C7: `running_max_rate` (`max_progress`) is monotonically
non-decreasing across `getSummaryProgress` calls; each call raises it
to the max of its old value and the rate just computed, so a
`getMaxProgress` read performed before the call does not include the
value the call computes; and across any run of updates and reads the
stored maximum is exactly the maximum (fold of `max`) over all
previously returned summary rates, seeded with the initial value. -/
theorem c7_running_max_rate :
    (∀ (p : MetricInfoPerHost) (t : ℚ),
      p.getMaxProgress ≤ ((p.getSummaryProgress t).2).getMaxProgress) ∧
    (∀ (p : MetricInfoPerHost) (t : ℚ),
      ((p.getSummaryProgress t).2).getMaxProgress =
        max p.getMaxProgress (p.getSummaryProgress t).1) ∧
    (∀ (p : MetricInfoPerHost) (ops : List HostOp),
      ((runOps p ops).1).getMaxProgress =
        List.foldl max p.getMaxProgress (runOps p ops).2) := by
  refine ⟨?_, ?_, ?_⟩
  · intro p t
    exact le_max_left _ _
  · intro p t
    rfl
  · intro p ops
    exact runOps_maxProgress ops p

/-- Appending row strings one by one is the header followed by the
joined row strings. -/
lemma foldl_append_join {α : Type} (f : α → String) (l : List α) :
    ∀ init : String, l.foldl (fun acc x => acc ++ f x) init = init ++ String.join (l.map f) := by
  induction l with
  | nil => intro init; exact (String.append_empty init).symm
  | cons x xs ih =>
      intro init
      have hjoin : String.join (f x :: xs.map f) = f x ++ String.join (xs.map f) := by
        apply String.ext
        simp
      simp only [List.foldl_cons, List.map_cons]
      rw [ih (init ++ f x), hjoin, String.append_assoc]

/-- C8: with the table shown, whenever the terminal is narrower than
the mandatory name, value and rate columns, or the registry holds no
metrics, the live render writes zero bytes and leaves the registry
state unchanged. -/
theorem c8_width_gating (ext : Externals) (st : ProgressTable) (tw : ℕ)
    (elapsed : ℚ) (tog : Bool)
    (h : tw < st.column_event_name_width + COLUMN_VALUE_WIDTH + COLUMN_PROGRESS_WIDTH ∨
      st.metrics = []) :
    writeTable ext st tw elapsed true tog = ("", st) := by
  unfold writeTable
  simp only [Bool.not_true, Bool.false_and, Bool.false_eq_true, if_false]
  by_cases hw : tw < st.column_event_name_width + COLUMN_VALUE_WIDTH + COLUMN_PROGRESS_WIDTH
  · rw [if_pos hw]
  · rw [if_neg hw]
    rcases h with h | h
    · exact absurd h hw
    · rw [if_pos (by simp [h])]

/-- C8 (witness): with the default 20-wide name column, a terminal of
width 59 — one column short of the required 60 — yields zero bytes on
an empty registry left unchanged. -/
theorem c8_width_gating_witness :
    writeTable demoExternals {} 59 0 true false = ("", {}) :=
  c8_width_gating demoExternals {} 59 0 false
    (Or.inl (by norm_num [COLUMN_VALUE_WIDTH, COLUMN_PROGRESS_WIDTH]))

/-- C9: when the terminal is wide enough and the registry is
non-empty, the final plain render is the uncolored header followed by
exactly one name-and-value row per registry entry — every metric ever
recorded, with no freshness filtering. -/
theorem c9_final_table_complete (ext : Externals) (st : ProgressTable) (tw : ℕ)
    (hw : st.column_event_name_width + COLUMN_VALUE_WIDTH ≤ tw) (hm : st.metrics ≠ []) :
    writeFinalTable ext st tw =
      ("\n" ++ writeWithWidth COLUMN_EVENT_NAME st.column_event_name_width
        ++ writeWithWidth COLUMN_VALUE COLUMN_VALUE_WIDTH)
      ++ String.join (st.metrics.map (finalRow ext st.column_event_name_width)) := by
  unfold writeFinalTable
  rw [if_neg (not_lt.mpr hw), if_neg (by simp [hm])]
  have hstep :
      (fun (acc : String) (kv : String × MetricInfoPerHost) =>
        acc ++ "\n" ++ writeWithWidth kv.1 st.column_event_name_width
          ++ writeWithWidth
              (formatReadableValue ext ((ext.catalog kv.1).getD ValueType.Number)
                kv.2.getSummaryValue)
              COLUMN_VALUE_WIDTH) =
      (fun (acc : String) (kv : String × MetricInfoPerHost) =>
        acc ++ finalRow ext st.column_event_name_width kv) := by
    funext acc kv
    simp [finalRow, String.append_assoc]
  rw [hstep, foldl_append_join]

/-- C9 (witness): a one-entry registry rendered at terminal width 40. -/
theorem c9_final_table_complete_witness :
    writeFinalTable demoExternals
        { metrics := [("Query", {})], column_event_name_width := 20 } 40 =
      ("\n" ++ writeWithWidth COLUMN_EVENT_NAME 20
        ++ writeWithWidth COLUMN_VALUE COLUMN_VALUE_WIDTH)
      ++ String.join
          ([("Query", ({} : MetricInfoPerHost))].map (finalRow demoExternals 20)) :=
  c9_final_table_complete demoExternals
    { metrics := [("Query", {})], column_event_name_width := 20 } 40
    (by norm_num [COLUMN_VALUE_WIDTH]) (by simp)

/-- A record that fails any of the three ingest filters (thread-group
sentinel, catalog membership, zero suppression) leaves the
accumulator — registry state and width tracker alike — unchanged. -/
lemma processRow_filtered (ext : Externals) (t : ℚ) (acc : ProgressTable × ℕ)
    (r : Row) (idx : ℕ)
    (h : r.thread_id ≠ THREAD_GROUP_ID ∨ ext.catalog r.name = none ∨ r.value = 0) :
    processRow ext t acc (r, idx) = acc := by
  unfold processRow
  dsimp only
  by_cases h1 : r.thread_id ≠ THREAD_GROUP_ID
  · rw [if_pos h1]
  · rw [if_neg h1]
    by_cases h2 : (ext.catalog r.name).isNone = true
    · rw [if_pos h2]
    · rw [if_neg h2]
      have h3 : r.value = 0 := by
        rcases h with h | h | h
        · exact absurd h h1
        · exact absurd (Option.isNone_iff_eq_none.mpr h) h2
        · exact h
      rw [if_pos h3]

/-- Every pair produced by the row-number pairing loop carries a row
of the block. -/
lemma mem_enumRows {l : List Row} : ∀ {i : ℕ} {rr : Row × ℕ}, rr ∈ enumRows i l → rr.1 ∈ l := by
  induction l with
  | nil => intro i rr h; cases h
  | cons x xs ih =>
      intro i rr h
      rcases List.mem_cons.mp h with h | h
      · rw [h]
        exact List.mem_cons_self _ _
      · exact List.mem_cons_of_mem _ (ih h)

/-- Sorted insertion only rearranges: members are the inserted element
or members of the original list. -/
lemma mem_insertSorted {x y : Row × ℕ} : ∀ {l : List (Row × ℕ)},
    y ∈ insertSorted x l → y = x ∨ y ∈ l := by
  intro l
  induction l with
  | nil =>
      intro h
      exact Or.inl (List.mem_singleton.mp h)
  | cons z zs ih =>
      intro h
      unfold insertSorted at h
      by_cases hc : rowSortLE x z = true
      · rw [if_pos hc] at h
        rcases List.mem_cons.mp h with h | h
        · exact Or.inl h
        · exact Or.inr h
      · rw [if_neg hc] at h
        rcases List.mem_cons.mp h with h | h
        · rw [h]
          exact Or.inr (List.mem_cons_self _ _)
        · rcases ih h with h | h
          · exact Or.inl h
          · exact Or.inr (List.mem_cons_of_mem _ h)

/-- Sorting only rearranges: every member of the sorted list is a
member of the input. -/
lemma mem_sortRows {y : Row × ℕ} : ∀ {l : List (Row × ℕ)}, y ∈ sortRows l → y ∈ l := by
  intro l
  induction l with
  | nil => intro h; cases h
  | cons x xs ih =>
      intro h
      unfold sortRows at h
      simp only [List.foldr_cons] at h
      rcases mem_insertSorted h with h | h
      · simp [h]
      · exact List.mem_cons_of_mem _ (ih h)

/-- Folding a function that fixes the accumulator on every list
element is the identity. -/
lemma foldl_eq_of_forall_id {α β : Type} (f : β → α → β) (l : List α) (b : β)
    (h : ∀ x ∈ l, ∀ acc, f acc x = acc) : l.foldl f b = b := by
  induction l generalizing b with
  | nil => rfl
  | cons x xs ih =>
      rw [List.foldl_cons, h x (List.mem_cons_self _ _) b]
      exact ih _ (fun y hy acc => h y (List.mem_cons_of_mem _ hy) acc)

/-- C4: a record whose thread id is not the aggregate sentinel, whose
metric name is missing from the catalog, or whose value is zero is
discarded without creating or modifying any registry entry; in
particular a batch of only zero-valued rows leaves the registry
exactly as it was, creating no entry. -/
theorem c4_silent_discard (ext : Externals) (t : ℚ) :
    (∀ (acc : ProgressTable × ℕ) (r : Row) (idx : ℕ),
      (r.thread_id ≠ THREAD_GROUP_ID ∨ ext.catalog r.name = none ∨ r.value = 0) →
      processRow ext t acc (r, idx) = acc) ∧
    (∀ (st : ProgressTable) (block : List Row),
      (∀ r ∈ block, r.value = 0) → (updateTable ext st block t).metrics = st.metrics) := by
  constructor
  · exact fun acc r idx h => processRow_filtered ext t acc r idx h
  · intro st block hz
    unfold updateTable
    dsimp only
    rw [foldl_eq_of_forall_id]
    intro rr hmem acc
    have hblock : rr.1 ∈ block := mem_enumRows (List.mem_of_mem_filter (mem_sortRows hmem))
    have : processRow ext t acc (rr.1, rr.2) = acc :=
      processRow_filtered ext t acc rr.1 rr.2 (Or.inr (Or.inr (hz _ hblock)))
    exact this

/-- C4 (witness): a single-row batch with value 0 for a catalog name
creates no registry entry, and the same row is a no-op for the
per-record step. -/
theorem c4_silent_discard_witness :
    processRow demoExternals 0 ({}, 10) (rowZero, 0) = ({}, 10) ∧
    (updateTable demoExternals {} [rowZero] 0).metrics = ({} : ProgressTable).metrics :=
  ⟨(c4_silent_discard demoExternals 0).1 ({}, 10) rowZero 0 (Or.inr (Or.inr rfl)),
   (c4_silent_discard demoExternals 0).2 {} [rowZero] (by
      intro r hr
      rw [List.mem_singleton.mp hr]
      rfl)⟩


/-- Erasing the first entry holding a key erases that key from the key
sequence. -/
lemma map_fst_eraseP (name : String) :
    ∀ l : List (String × MetricInfoPerHost),
      (l.eraseP (fun kv => kv.1 == name)).map Prod.fst = (l.map Prod.fst).erase name := by
  intro l
  induction l with
  | nil => rfl
  | cons kv rest ih =>
      rw [List.eraseP_cons, List.map_cons, List.erase_cons]
      by_cases hk : (kv.1 == name) = true
      · simp [hk]
      · simp only [Bool.not_eq_true] at hk
        simp [hk, ih]

/-- A failed lookup means the key is absent from the key sequence. -/
lemma lookup_none_not_mem (name : String) :
    ∀ l : List (String × MetricInfoPerHost),
      l.lookup name = none → name ∉ l.map Prod.fst := by
  intro l
  induction l with
  | nil => intro _ h; cases h
  | cons kv rest ih =>
      intro hl hmem
      rw [List.lookup_cons] at hl
      by_cases hk : (name == kv.1) = true
      · rw [hk] at hl
        simp at hl
      · simp only [Bool.not_eq_true] at hk
        rw [hk] at hl
        rcases List.mem_cons.mp hmem with h | h
        · rw [h] at hk
          simp at hk
        · exact ih hl h

/-- An accepted record moves (or inserts) its metric name at the front
of the registry key sequence, erasing its old position; it raises the
width tracker to the name length and leaves the stored column width
untouched. -/
lemma processRow_accepted (ext : Externals) (t : ℚ) (st : ProgressTable) (maxw : ℕ)
    (r : Row) (idx : ℕ) (h : acceptedRow ext r = true) :
    (processRow ext t (st, maxw) (r, idx)).1.metrics.map Prod.fst =
      r.name :: ((st.metrics.map Prod.fst).erase r.name) ∧
    (processRow ext t (st, maxw) (r, idx)).2 = max maxw r.name.length ∧
    (processRow ext t (st, maxw) (r, idx)).1.column_event_name_width =
      st.column_event_name_width := by
  have hsplit := h
  unfold acceptedRow at hsplit
  rw [Bool.and_eq_true, Bool.and_eq_true] at hsplit
  obtain ⟨⟨h1, h2⟩, h3⟩ := hsplit
  have h1' : ¬(r.thread_id ≠ THREAD_GROUP_ID) := by
    simp only [ne_eq, not_not]
    exact beq_iff_eq.mp h1
  have h2' : ¬((ext.catalog r.name).isNone = true) := by
    rw [Bool.not_eq_true, Option.isNone_eq_false_iff]
    exact h2
  have h3' : ¬(r.value = 0) := by
    simpa using h3
  unfold processRow
  dsimp only
  rw [if_neg h1', if_neg h2', if_neg h3']
  cases hlk : st.metrics.lookup r.name with
  | some a =>
      dsimp only
      refine ⟨?_, rfl, rfl⟩
      rw [List.map_cons, map_fst_eraseP]
  | none =>
      dsimp only
      refine ⟨?_, rfl, rfl⟩
      rw [List.map_cons,
        List.erase_of_not_mem (lookup_none_not_mem r.name st.metrics hlk)]

/-- Ingesting a single accepted record: its name moves to the front of
the key sequence. -/
lemma updateTable_single (ext : Externals) (st : ProgressTable) (r : Row) (t : ℚ)
    (h : acceptedRow ext r = true) :
    (updateTable ext st [r] t).metrics.map Prod.fst =
      r.name :: ((st.metrics.map Prod.fst).erase r.name) := by
  have hth : (r.thread_id == THREAD_GROUP_ID) = true := by
    have := h
    unfold acceptedRow at this
    rw [Bool.and_eq_true, Bool.and_eq_true] at this
    exact this.1.1
  unfold updateTable
  dsimp only
  rw [show enumRows 0 [r] = [(r, 0)] from rfl]
  rw [List.filter_cons, if_pos (by simpa using hth)]
  simp only [List.filter_nil]
  rw [show sortRows [(r, 0)] = [(r, 0)] from rfl]
  rw [List.foldl_cons, List.foldl_nil]
  exact (processRow_accepted ext t st COLUMN_EVENT_NAME.length r 0 h).1

/-- C5: every accepted (touched) record moves its metric name to the
front of the registry's ordered key sequence — erasing its previous
position, so a new name is inserted at the front — and ingesting
metric "A", then "B", then "A" again in three successive ingests
leaves the registry order front-to-back as A, B. -/
theorem c5_recency_ordering :
    (∀ (ext : Externals) (t : ℚ) (st : ProgressTable) (maxw : ℕ) (r : Row) (idx : ℕ),
      acceptedRow ext r = true →
      ((processRow ext t (st, maxw) (r, idx)).1).metrics.map Prod.fst =
        r.name :: ((st.metrics.map Prod.fst).erase r.name)) ∧
    ((updateTable demoExternals
        (updateTable demoExternals (updateTable demoExternals {} [rowA] 0) [rowB] 1)
        [rowA] 2).metrics.map Prod.fst = ["A", "B"]) := by
  constructor
  · intro ext t st maxw r idx h
    exact (processRow_accepted ext t st maxw r idx h).1
  · have hA : acceptedRow demoExternals rowA = true := by decide
    have hB : acceptedRow demoExternals rowB = true := by decide
    rw [updateTable_single demoExternals _ rowA 2 hA,
      updateTable_single demoExternals _ rowB 1 hB,
      updateTable_single demoExternals {} rowA 0 hA]
    decide

/-- C5 (witness): the move-to-front step applied to the empty registry
and the accepted row for metric "A". -/
theorem c5_recency_ordering_witness :
    ((processRow demoExternals 0 (({} : ProgressTable), 10) (rowA, 0)).1).metrics.map Prod.fst =
      rowA.name :: (((({} : ProgressTable).metrics.map Prod.fst)).erase rowA.name) :=
  c5_recency_ordering.1 demoExternals 0 {} 10 rowA 0 (by decide)

/-- A record rejected by `acceptedRow` fails one of the three filters. -/
lemma not_accepted_cases (ext : Externals) (r : Row) (h : acceptedRow ext r = false) :
    r.thread_id ≠ THREAD_GROUP_ID ∨ ext.catalog r.name = none ∨ r.value = 0 := by
  by_contra hc
  push_neg at hc
  obtain ⟨hc1, hc2, hc3⟩ := hc
  have hacc : acceptedRow ext r = true := by
    unfold acceptedRow
    rw [Bool.and_eq_true, Bool.and_eq_true]
    refine ⟨⟨beq_iff_eq.mpr hc1, Option.ne_none_iff_isSome.mp hc2⟩, ?_⟩
    simp [hc3]
  rw [hacc] at h
  cases h

/-- The width tracker threaded through the ingest fold is the fold of
`max` over the accepted records' name lengths. -/
lemma foldl_processRow_snd (ext : Externals) (t : ℚ) :
    ∀ (l : List (Row × ℕ)) (acc : ProgressTable × ℕ),
      (l.foldl (processRow ext t) acc).2 =
        ((l.filter (fun rr => acceptedRow ext rr.1)).map
          (fun rr => rr.1.name.length)).foldl max acc.2 := by
  intro l
  induction l with
  | nil => intro acc; rfl
  | cons rr rest ih =>
      intro acc
      rw [List.foldl_cons, List.filter_cons]
      by_cases hr : acceptedRow ext rr.1 = true
      · rw [if_pos (by simpa using hr), List.map_cons, List.foldl_cons, ih]
        have hstep := processRow_accepted ext t acc.1 acc.2 rr.1 rr.2 hr
        rw [hstep.2.1]
      · rw [if_neg (by simpa using hr)]
        have hfix : processRow ext t acc (rr.1, rr.2) = acc :=
          processRow_filtered ext t acc rr.1 rr.2
            (not_accepted_cases ext rr.1 (Bool.not_eq_true _ ▸ hr))
        rw [ih, hfix]

/-- Sorted insertion permutes consing. -/
lemma insertSorted_perm (x : Row × ℕ) :
    ∀ l : List (Row × ℕ), List.Perm (insertSorted x l) (x :: l) := by
  intro l
  induction l with
  | nil => exact List.Perm.refl _
  | cons y ys ih =>
      unfold insertSorted
      by_cases hc : rowSortLE x y = true
      · rw [if_pos hc]
      · rw [if_neg hc]
        exact (ih.cons y).trans (List.Perm.swap x y ys)

/-- The ingest sort is a permutation. -/
lemma sortRows_perm : ∀ l : List (Row × ℕ), List.Perm (sortRows l) l := by
  intro l
  induction l with
  | nil => exact List.Perm.refl _
  | cons x xs ih =>
      unfold sortRows
      rw [List.foldr_cons]
      exact (insertSorted_perm x _).trans (ih.cons x)

/-- Folding `max` is invariant under permutation of the list. -/
lemma foldl_max_perm {l1 l2 : List ℕ} (h : List.Perm l1 l2) :
    ∀ a : ℕ, l1.foldl max a = l2.foldl max a := by
  induction h with
  | nil => intro a; rfl
  | cons x _ ih => intro a; rw [List.foldl_cons, List.foldl_cons, ih]
  | swap x y l => intro a; rw [List.foldl_cons, List.foldl_cons, List.foldl_cons,
      List.foldl_cons, sup_right_comm]
  | trans _ _ ih1 ih2 => intro a; rw [ih1, ih2]

/-- Filtering the accepted enumerated pairs and taking a row function
is filtering the block itself. -/
lemma enumRows_filter_map (ext : Externals) (f : Row → ℕ) :
    ∀ (block : List Row) (i : ℕ),
      ((enumRows i block).filter (fun rr => acceptedRow ext rr.1)).map (fun rr => f rr.1) =
        (block.filter (acceptedRow ext)).map f := by
  intro block
  induction block with
  | nil => intro i; rfl
  | cons r rs ih =>
      intro i
      unfold enumRows
      rw [List.filter_cons, List.filter_cons]
      by_cases hr : acceptedRow ext r = true
      · rw [if_pos (by simpa using hr), if_pos (by simpa using hr),
          List.map_cons, List.map_cons, ih]
      · rw [if_neg (by simpa using hr), if_neg (by simpa using hr), ih]

/-- Acceptance subsumes the thread-group test, so pre-filtering by
thread id and then by acceptance is filtering by acceptance alone. -/
lemma filter_accepted_thread (ext : Externals) (l : List (Row × ℕ)) :
    (l.filter (fun rr => rr.1.thread_id == THREAD_GROUP_ID)).filter
        (fun rr => acceptedRow ext rr.1) =
      l.filter (fun rr => acceptedRow ext rr.1) := by
  rw [List.filter_filter]
  congr 1
  funext rr
  by_cases hr : acceptedRow ext rr.1 = true
  · have hth : (rr.1.thread_id == THREAD_GROUP_ID) = true := by
      have := hr
      unfold acceptedRow at this
      rw [Bool.and_eq_true, Bool.and_eq_true] at this
      exact this.1.1
    rw [hr, hth]
    rfl
  · rw [Bool.not_eq_true] at hr
    rw [hr]
    rfl

/-- C3 (counterexample): the event-name column width is recomputed
from scratch on every ingest and can shrink.  Ingesting the
28-character name gives width 29; a following ingest touching only the
5-character name `Query` drops the width to 11 < 29, even though the
widest name seen so far across all ingests is still 28 characters. -/
theorem c3_width_counterexample :
    (updateTable demoExternals {} [rowLong] 0).column_event_name_width = 29 ∧
    (updateTable demoExternals (updateTable demoExternals {} [rowLong] 0)
        [rowQuery] 1).column_event_name_width = 11 ∧
    (updateTable demoExternals (updateTable demoExternals {} [rowLong] 0)
        [rowQuery] 1).column_event_name_width <
      (updateTable demoExternals {} [rowLong] 0).column_event_name_width := by
  refine ⟨by decide, by decide, by decide⟩

/-- C3 (amended): on every ingest the event-name column width is
recomputed from scratch as one more than the fold of `max` over the
lengths of the batch's accepted names, seeded with the fixed minimum
(the header label length): within one ingest the tracker is raised to
`max(current, name.length)` per accepted name, but it is independent
of the width stored before the ingest and may shrink across ingests. -/
theorem c3_width_amended (ext : Externals) (st : ProgressTable) (block : List Row) (t : ℚ) :
    (updateTable ext st block t).column_event_name_width =
      ((block.filter (acceptedRow ext)).map (fun r => r.name.length)).foldl max
        COLUMN_EVENT_NAME.length + 1 := by
  unfold updateTable
  dsimp only
  rw [foldl_processRow_snd]
  congr 1
  have hp : List.Perm
      (((sortRows ((enumRows 0 block).filter
          (fun rr => rr.1.thread_id == THREAD_GROUP_ID))).filter
        (fun rr => acceptedRow ext rr.1)).map (fun rr => rr.1.name.length))
      ((((enumRows 0 block).filter (fun rr => rr.1.thread_id == THREAD_GROUP_ID)).filter
        (fun rr => acceptedRow ext rr.1)).map (fun rr => rr.1.name.length)) :=
    ((sortRows_perm _).filter _).map _
  rw [foldl_max_perm hp, filter_accepted_thread,
    enumRows_filter_map ext (fun r => r.name.length) block 0]
